import Mathlib

/-!
# Chaos to Beauty: beauty-level state machine and light-painter trails

A shallow embedding of `src/main.js`.

Modelling conventions.

* JavaScript numbers are modelled as exact rationals (`ℚ`): every arithmetic
  operation is the exact one, rounding of IEEE doubles is not modelled.
  `Date.now()` values are integers (milliseconds).
* `Math.cos`, `Math.sin` and `Math.PI` are external; they are the fields of a
  `MathLib` that every definition using them takes as a parameter.
* `Math.random()` and `Date.now()` are inputs: each event carries the clock value
  and the random draws its handler consumes.
* `THREE.MathUtils.lerp` and `THREE.Vector3` belong to the three.js library; they
  are transcribed from the library's definitions
  (`lerp(x, y, t) = (1 - t) * x + t * y`, `Vector3.lerp`: `this.x += (v.x - this.x) * alpha`).
* Render-only objects (geometry buffers, materials, sparkle particles, camera, fog)
  are not part of the state; the DOM class lists the handlers write are booleans.
-/

namespace ChaosToBeauty

/-! ## External numeric library -/

/-- The part of the JavaScript `Math` object the program reads. -/
structure MathLib where
  cos : ℚ → ℚ
  sin : ℚ → ℚ
  PI : ℚ

/-- Truncation toward zero, the rounding used by the JavaScript remainder. -/
def jsTrunc (q : ℚ) : ℤ := if 0 ≤ q then ⌊q⌋ else ⌈q⌉

/-- The JavaScript `%` operator on numbers: `a - b * trunc (a / b)`
(the result has the sign of the dividend). Only used with divisor `1`. -/
def jsMod (a b : ℚ) : ℚ := a - b * (jsTrunc (a / b) : ℚ)

/-! ## Configuration (`CONFIG`) -/

namespace CONFIG

def TYPING_TIMEOUT : ℤ := 2000
def FADE_IN_SPEED : ℚ := 0.03
def FADE_OUT_SPEED : ℚ := 0.01
def MAX_PAINTERS : ℕ := 30
def ROTATION_SPEED : ℚ := 0.1
def COLORS_xmas : List ℕ := [0xffd700, 0xff6b6b, 0x228b22, 0xfffacd, 0xff4757, 0x2ed573]

end CONFIG

/-! ## three.js helpers -/

namespace THREE

/-- The library function `THREE.MathUtils.lerp`. -/
def MathUtils.lerp (x y t : ℚ) : ℚ := (1 - t) * x + t * y

/-- A `THREE.Vector3`. -/
structure Vector3 where
  x : ℚ
  y : ℚ
  z : ℚ
  deriving DecidableEq, Repr

/-- The library method `Vector3.lerp(v, alpha)`: `this.x += (v.x - this.x) * alpha`. -/
def Vector3.lerp (self v : Vector3) (alpha : ℚ) : Vector3 :=
  { x := self.x + (v.x - self.x) * alpha
    y := self.y + (v.y - self.y) * alpha
    z := self.z + (v.z - self.z) * alpha }

end THREE

open THREE

/-! ## `LightPainter` -/

/-- The fields of a `LightPainter` that its methods read or write. -/
structure LightPainter where
  numPoints : ℕ
  points : List Vector3
  delay : ℚ
  active : Bool
  opacity : ℚ
  color : ℕ
  targetRadiusBase : ℚ
  targetHeight : ℚ
  angleOffset : ℚ
  speed : ℚ
  progress : ℚ
  deriving DecidableEq

/-- The five `Math.random()` results the constructor consumes, in order. -/
structure PainterDraws where
  color : ℚ
  radius : ℚ
  height : ℚ
  angle : ℚ
  speed : ℚ

namespace LightPainter

/-- The constructor `new LightPainter(scene, colorPalette, delay)`. -/
def new (M : MathLib) (colorPalette : List ℕ) (delay : ℚ) (d : PainterDraws) : LightPainter :=
  { numPoints := 80
    points := List.replicate 80 ⟨0, 0, 0⟩
    delay := delay
    active := false
    opacity := 0
    color := colorPalette.getD (Int.toNat ⌊d.color * (colorPalette.length : ℚ)⌋) 0
    targetRadiusBase := d.radius * 25 + 8
    targetHeight := d.height * 70 + 35
    angleOffset := d.angle * M.PI * 2
    speed := d.speed * 0.015 + 0.008
    progress := 0 }

/-- The method `activate()`. -/
def activate (p : LightPainter) : LightPainter := { p with active := true }

/-- The value `lerpFactor` of the trail loop at index `i`. -/
def lerpFactor (numPoints i : ℕ) : ℚ := 0.18 - ((i : ℚ) / (numPoints : ℚ)) * 0.12

/-- One iteration of the trail loop: `points[i].lerp(points[i - 1], lerpFactor)`. -/
def trailStep (numPoints : ℕ) (pts : List Vector3) (i : ℕ) : List Vector3 :=
  pts.set i (Vector3.lerp (pts.getD i ⟨0, 0, 0⟩) (pts.getD (i - 1) ⟨0, 0, 0⟩)
    (lerpFactor numPoints i))

/-- The trail loop `for (let i = 1; i < numPoints; i++)`. -/
def trailLoop (numPoints : ℕ) (pts : List Vector3) : List Vector3 :=
  (List.range' 1 (numPoints - 1)).foldl (trailStep numPoints) pts

/-- The local `currentRadius`, computed from the stored `this.progress`. -/
def currentRadius (p : LightPainter) : ℚ := p.targetRadiusBase * (1 - p.progress)

/-- The local `currentAngle`, computed from the stored `this.progress`. -/
def currentAngle (M : MathLib) (p : LightPainter) : ℚ :=
  p.angleOffset + p.progress * M.PI * 8

/-- The head target `(targetX, targetY, targetZ)` after the noise terms are added. -/
def headTarget (M : MathLib) (p : LightPainter) (time : ℚ) : Vector3 :=
  { x := M.cos (p.currentAngle M) * p.currentRadius + M.sin (time * 2 + p.angleOffset) * 1.5
    y := p.progress * p.targetHeight + M.cos (time * 1.5) * 0.8
    z := M.sin (p.currentAngle M) * p.currentRadius + M.cos (time * 2 + p.angleOffset) * 1.5 }

/-- The opacity after the smoothing step of `update`. -/
def smoothedOpacity (p : LightPainter) (globalOpacity : ℚ) : ℚ :=
  MathUtils.lerp p.opacity (globalOpacity * 0.8) 0.05

/-- The method `update(time, globalOpacity)`. -/
def update (M : MathLib) (p : LightPainter) (time globalOpacity : ℚ) : LightPainter :=
  if !p.active then p
  else
    let p1 := { p with opacity := p.smoothedOpacity globalOpacity }
    if p1.opacity < 0.01 then p1
    else
      let p2 := { p1 with progress := jsMod (time * p1.speed) 1 }
      let p3 := { p2 with points := p2.points.set 0 (p2.headTarget M time) }
      { p3 with points := trailLoop p3.numPoints p3.points }

end LightPainter

/-! ## Global state -/

/-- The global object `state`. -/
structure State where
  beautyLevel : ℚ
  isTyping : Bool
  lastTypingTime : ℤ
  keyPressCount : ℕ
  targetBeautyLevel : ℚ
  paintersCreated : ℕ
  deriving DecidableEq

/-- The mutable globals of the program: `state`, the `painters` array and the DOM
class lists and style the handlers write (`messageOverlay` has class `hidden`,
`typingIndicator` has class `active`, `quoteContainer` has class `visible`,
`progressFill.style.width` in percent). -/
structure World where
  state : State
  painters : List LightPainter
  messageHidden : Bool
  typingActive : Bool
  quoteVisible : Bool
  progressWidth : ℚ
  deriving DecidableEq

/-- The globals at start-up. -/
def init : World :=
  { state :=
      { beautyLevel := 0, isTyping := false, lastTypingTime := 0, keyPressCount := 0
        targetBeautyLevel := 0, paintersCreated := 0 }
    painters := []
    messageHidden := false
    typingActive := false
    quoteVisible := false
    progressWidth := 0 }

/-- The fields of a keyboard event that the handlers read. -/
structure KeyEvent where
  key : String
  ctrlKey : Bool
  metaKey : Bool

/-- The `Math.random()` results one `handleKeyPress` call consumes: the spawn draw,
the constructor draws, and the draw made for the painter at each index of the
activation pass. -/
structure KeyDraws where
  spawn : ℚ
  painter : PainterDraws
  activation : ℕ → ℚ

/-- The guard of `handleKeyPress`. -/
def isReserved (ev : KeyEvent) : Bool :=
  ev.key == "F5" || ev.key == "F12" || ev.ctrlKey || ev.metaKey

/-- The spawn step of `handleKeyPress`: a new painter is constructed, activated
and pushed when fewer than `MAX_PAINTERS` were created and the draw is below `0.3`. -/
def spawnPainter (M : MathLib) (d : KeyDraws) (w : World) : World :=
  if w.state.paintersCreated < CONFIG.MAX_PAINTERS ∧ d.spawn < 0.3 then
    let painter := LightPainter.new M CONFIG.COLORS_xmas
      ((w.state.paintersCreated : ℚ) * 100) d.painter
    { w with
      painters := w.painters ++ [painter.activate]
      state := { w.state with paintersCreated := w.state.paintersCreated + 1 } }
  else w

/-- The pass `painters.forEach((painter, i) => ...)` of `handleKeyPress`, from index `i`. -/
def activationPass (draw : ℕ → ℚ) : ℕ → List LightPainter → List LightPainter
  | _, [] => []
  | i, p :: ps =>
    (if !p.active && decide (draw i < 0.5) then p.activate else p)
      :: activationPass draw (i + 1) ps

/-- The handler `handleKeyPress(event)`; `now` is the value of `Date.now()`. -/
def handleKeyPress (M : MathLib) (ev : KeyEvent) (now : ℤ) (d : KeyDraws) (w : World) : World :=
  if isReserved ev then w
  else
    let w1 := { w with
      state := { w.state with
        isTyping := true
        lastTypingTime := now
        keyPressCount := w.state.keyPressCount + 1
        targetBeautyLevel := min 1 (w.state.targetBeautyLevel + 0.02) }
      messageHidden := true
      typingActive := true }
    let w2 := spawnPainter M d w1
    let w3 := { w2 with painters := activationPass d.activation 0 w2.painters }
    if w3.state.beautyLevel > 0.5 then { w3 with quoteVisible := true } else w3

/-- The handler `handleKeyRelease()`; `now` is the value of `Date.now()`. -/
def handleKeyRelease (now : ℤ) (w : World) : World :=
  { w with state := { w.state with lastTypingTime := now } }

/-- The function `updateState()`; `now` is the value of `Date.now()`. -/
def updateState (now : ℤ) (w : World) : World :=
  let w1 :=
    if w.state.isTyping ∧ now - w.state.lastTypingTime > CONFIG.TYPING_TIMEOUT then
      { w with state := { w.state with isTyping := false }, typingActive := false }
    else w
  let w2 :=
    if w1.state.isTyping then
      { w1 with state := { w1.state with
          beautyLevel := MathUtils.lerp w1.state.beautyLevel w1.state.targetBeautyLevel
            CONFIG.FADE_IN_SPEED } }
    else
      let t := max 0 (w1.state.targetBeautyLevel - 0.008)
      let b := MathUtils.lerp w1.state.beautyLevel t CONFIG.FADE_OUT_SPEED
      let w1a := { w1 with state := { w1.state with targetBeautyLevel := t, beautyLevel := b } }
      if b < 0.3 then { w1a with quoteVisible := false } else w1a
  { w2 with progressWidth := w2.state.beautyLevel * 100 }

/-- The frame callback `animate(timestamp)`, restricted to the modelled globals:
`updateState()` and then `painter.update(time, state.beautyLevel)` on every painter. -/
def animate (M : MathLib) (timestamp : ℚ) (now : ℤ) (w : World) : World :=
  let time := timestamp * 0.001
  let w1 := updateState now w
  { w1 with painters := w1.painters.map (fun p => p.update M time w1.state.beautyLevel) }

/-- What the host delivers: key-down, key-up, or a frame. -/
inductive Event where
  | keydown (ev : KeyEvent) (now : ℤ) (d : KeyDraws)
  | keyup (ev : KeyEvent) (now : ℤ)
  | tick (timestamp : ℚ) (now : ℤ)

/-- The handler the host runs for an event. -/
def step (M : MathLib) (w : World) : Event → World
  | .keydown ev now d => handleKeyPress M ev now d w
  | .keyup _ now => handleKeyRelease now w
  | .tick timestamp now => animate M timestamp now w

/-- The globals after a finite sequence of events. -/
def run (M : MathLib) (w : World) (es : List Event) : World := es.foldl (step M) w

/-! ## Concrete inputs used in the examples -/

/-- A plain key with no modifier held. -/
def plainKey : KeyEvent := { key := "a", ctrlKey := false, metaKey := false }

/-- Draws that are all zero. -/
def zeroDraws : KeyDraws :=
  { spawn := 0, painter := ⟨0, 0, 0, 0, 0⟩, activation := fun _ => 0 }

/-- A `MathLib` for the examples: `PI` is the double nearest to the circle constant,
`cos` and `sin` are constant at their values at angle zero (exact wherever the
examples evaluate them at `0`). -/
def flatMath : MathLib :=
  { cos := fun _ => 1, sin := fun _ => 0, PI := 884279719003555 / 281474976710656 }

/-- A painter as the constructor returns it for all-zero draws, then activated. -/
def freshPainter : LightPainter :=
  (LightPainter.new flatMath CONFIG.COLORS_xmas 0 ⟨0, 0, 0, 0, 0⟩).activate

/-- The same painter later in its life, with opacity `0.5`. -/
def warmPainter : LightPainter := { freshPainter with opacity := 0.5 }

/-- A painter as the constructor returns it for the draws that give
`targetRadiusBase = 10`, `targetHeight = 50`, `angleOffset = 0`, `speed = 0.01`,
then activated. -/
def spiralPainter : LightPainter :=
  (LightPainter.new flatMath CONFIG.COLORS_xmas 0 ⟨0, 0.08, 3 / 14, 0, 2 / 15⟩).activate

/-! ## Predicates and inputs used in the statements -/

/-- Both levels lie in `[0, 1]`. -/
def LevelsInUnit (w : World) : Prop :=
  0 ≤ w.state.beautyLevel ∧ w.state.beautyLevel ≤ 1 ∧
    0 ≤ w.state.targetBeautyLevel ∧ w.state.targetBeautyLevel ≤ 1

/-- The population has one painter per creation and at most `MAX_PAINTERS` of them. -/
def PopulationOk (w : World) : Prop :=
  w.painters.length = w.state.paintersCreated ∧ w.state.paintersCreated ≤ CONFIG.MAX_PAINTERS

/-- Every painter of the list has `active = true`. -/
def AllActive (ps : List LightPainter) : Prop := ∀ p ∈ ps, p.active = true

/-- Whether typing is still active after the timeout test of `updateState`. -/
def stillTyping (now : ℤ) (w : World) : Bool :=
  w.state.isTyping && decide (now - w.state.lastTypingTime ≤ CONFIG.TYPING_TIMEOUT)

/-- The refresh key, no modifier held. -/
def f5Key : KeyEvent := { key := "F5", ctrlKey := false, metaKey := false }

/-- The globals after one plain key-down at clock `0` that spawns no painter. -/
def typingWorld : World :=
  { init with
    state := { init.state with
      isTyping := true, keyPressCount := 1, targetBeautyLevel := 0.02 }
    messageHidden := true
    typingActive := true }

/-- Globals with the level at `0.6` and the quote hidden. -/
def brightWorld : World :=
  { init with state := { init.state with beautyLevel := 0.6, targetBeautyLevel := 1 } }

/-- Idle globals with the level at `b`, the target at `0` and the quote shown. -/
def idleWorld (b : ℚ) : World :=
  { init with state := { init.state with beautyLevel := b }, quoteVisible := true }

/-- Draws for a key-down that spawns no painter (the spawn draw is not below `0.3`). -/
def quietDraws : KeyDraws := { zeroDraws with spawn := 1 }

/-- Fifty plain key-downs at clock `0`, then `120` frames at clock `1000`. -/
def risingRun : List Event :=
  List.replicate 50 (.keydown plainKey 0 quietDraws) ++ List.replicate 120 (.tick 0 1000)

/-- The run `risingRun`, then one plain key-down at clock `1000`, then `186` frames at
clock `10000`. -/
def fadingRun : List Event :=
  risingRun ++ [.keydown plainKey 1000 quietDraws] ++ List.replicate 186 (.tick 0 10000)

/-- A run of frames, each given by its timestamp and its clock value. -/
def tickEvents (ns : List (ℚ × ℤ)) : List Event := ns.map (fun n => Event.tick n.1 n.2)

/-! ## Projections of the handlers -/

theorem spawnPainter_beautyLevel (M : MathLib) (d : KeyDraws) (w : World) :
    (spawnPainter M d w).state.beautyLevel = w.state.beautyLevel := by
  unfold spawnPainter; split <;> rfl

theorem spawnPainter_targetBeautyLevel (M : MathLib) (d : KeyDraws) (w : World) :
    (spawnPainter M d w).state.targetBeautyLevel = w.state.targetBeautyLevel := by
  unfold spawnPainter; split <;> rfl

theorem spawnPainter_isTyping (M : MathLib) (d : KeyDraws) (w : World) :
    (spawnPainter M d w).state.isTyping = w.state.isTyping := by
  unfold spawnPainter; split <;> rfl

theorem spawnPainter_quoteVisible (M : MathLib) (d : KeyDraws) (w : World) :
    (spawnPainter M d w).quoteVisible = w.quoteVisible := by
  unfold spawnPainter; split <;> rfl

theorem handleKeyPress_beautyLevel (M : MathLib) (ev : KeyEvent) (now : ℤ) (d : KeyDraws)
    (w : World) : (handleKeyPress M ev now d w).state.beautyLevel = w.state.beautyLevel := by
  unfold handleKeyPress
  split
  · rfl
  · dsimp only
    split <;> simp [spawnPainter_beautyLevel]

theorem handleKeyPress_targetBeautyLevel (M : MathLib) (ev : KeyEvent) (now : ℤ) (d : KeyDraws)
    (w : World) (h : isReserved ev = false) :
    (handleKeyPress M ev now d w).state.targetBeautyLevel
      = min 1 (w.state.targetBeautyLevel + 0.02) := by
  unfold handleKeyPress
  rw [if_neg (by simp [h])]
  dsimp only
  split <;> simp [spawnPainter_targetBeautyLevel]

theorem handleKeyPress_isTyping (M : MathLib) (ev : KeyEvent) (now : ℤ) (d : KeyDraws)
    (w : World) (h : isReserved ev = false) :
    (handleKeyPress M ev now d w).state.isTyping = true := by
  unfold handleKeyPress
  rw [if_neg (by simp [h])]
  dsimp only
  split <;> simp [spawnPainter_isTyping]

theorem handleKeyPress_reserved (M : MathLib) (ev : KeyEvent) (now : ℤ) (d : KeyDraws)
    (w : World) (h : isReserved ev = true) : handleKeyPress M ev now d w = w := by
  unfold handleKeyPress
  rw [if_pos h]

theorem update_active (M : MathLib) (p : LightPainter) (time g : ℚ) :
    (p.update M time g).active = p.active := by
  unfold LightPainter.update
  split
  · rfl
  · dsimp only
    split <;> rfl

theorem animate_state (M : MathLib) (timestamp : ℚ) (now : ℤ) (w : World) :
    (animate M timestamp now w).state = (updateState now w).state := rfl

theorem animate_quoteVisible (M : MathLib) (timestamp : ℚ) (now : ℤ) (w : World) :
    (animate M timestamp now w).quoteVisible = (updateState now w).quoteVisible := rfl

theorem updateState_painters (now : ℤ) (w : World) :
    (updateState now w).painters = w.painters := by
  unfold updateState
  simp only
  split <;> split <;> (try split) <;> rfl

theorem run_nil (M : MathLib) (w : World) : run M w [] = w := rfl

theorem run_cons (M : MathLib) (w : World) (e : Event) (es : List Event) :
    run M w (e :: es) = run M (step M w e) es := rfl

theorem run_append (M : MathLib) (w : World) (es fs : List Event) :
    run M w (es ++ fs) = run M (run M w es) fs := by
  simp [run, List.foldl_append]

/-- An invariant of every handler holds after every finite sequence of events. -/
theorem run_invariant (M : MathLib) (P : World → Prop)
    (hstep : ∀ w e, P w → P (step M w e)) (w : World) (hw : P w) (es : List Event) :
    P (run M w es) := by
  induction es generalizing w with
  | nil => exact hw
  | cons e es ih => exact ih _ (hstep w e hw)

/-! ## The levels stay in the unit interval -/

theorem lerp_mem_unit {x y t : ℚ} (hx0 : 0 ≤ x) (hx1 : x ≤ 1) (hy0 : 0 ≤ y) (hy1 : y ≤ 1)
    (ht0 : 0 ≤ t) (ht1 : t ≤ 1) :
    0 ≤ MathUtils.lerp x y t ∧ MathUtils.lerp x y t ≤ 1 := by
  unfold MathUtils.lerp
  have h1 : 0 ≤ 1 - t := sub_nonneg.2 ht1
  constructor
  · have := mul_nonneg h1 hx0
    have := mul_nonneg ht0 hy0
    linarith
  · have := mul_le_mul_of_nonneg_left hx1 h1
    have := mul_le_mul_of_nonneg_left hy1 ht0
    linarith

theorem handleKeyPress_levels (M : MathLib) (ev : KeyEvent) (now : ℤ) (d : KeyDraws)
    (w : World) (hw : LevelsInUnit w) : LevelsInUnit (handleKeyPress M ev now d w) := by
  obtain ⟨h1, h2, h3, h4⟩ := hw
  cases h : isReserved ev with
  | true => rw [handleKeyPress_reserved M ev now d w h]; exact ⟨h1, h2, h3, h4⟩
  | false =>
    refine ⟨?_, ?_, ?_, ?_⟩
    · rw [handleKeyPress_beautyLevel]; exact h1
    · rw [handleKeyPress_beautyLevel]; exact h2
    · rw [handleKeyPress_targetBeautyLevel M ev now d w h]
      exact le_min zero_le_one (by linarith [show (0 : ℚ) ≤ 0.02 by norm_num])
    · rw [handleKeyPress_targetBeautyLevel M ev now d w h]
      exact min_le_left _ _

theorem updateState_levels (now : ℤ) (w : World) (hw : LevelsInUnit w) :
    LevelsInUnit (updateState now w) := by
  obtain ⟨h1, h2, h3, h4⟩ := hw
  have hin : (0 : ℚ) ≤ CONFIG.FADE_IN_SPEED ∧ CONFIG.FADE_IN_SPEED ≤ 1 := by
    norm_num [CONFIG.FADE_IN_SPEED]
  have hout : (0 : ℚ) ≤ CONFIG.FADE_OUT_SPEED ∧ CONFIG.FADE_OUT_SPEED ≤ 1 := by
    norm_num [CONFIG.FADE_OUT_SPEED]
  have ht0 : 0 ≤ max 0 (w.state.targetBeautyLevel - 0.008) := le_max_left _ _
  have ht1 : max 0 (w.state.targetBeautyLevel - 0.008) ≤ 1 :=
    max_le zero_le_one (by linarith [show (0 : ℚ) ≤ 0.008 by norm_num])
  have hA := lerp_mem_unit h1 h2 h3 h4 hin.1 hin.2
  have hB := lerp_mem_unit h1 h2 ht0 ht1 hout.1 hout.2
  unfold updateState LevelsInUnit
  simp only
  split <;> split <;> (try split) <;> simp_all

theorem step_levels (M : MathLib) (w : World) (e : Event) (hw : LevelsInUnit w) :
    LevelsInUnit (step M w e) := by
  cases e with
  | keydown ev now d => exact handleKeyPress_levels M ev now d w hw
  | keyup ev now => exact hw
  | tick timestamp now => exact updateState_levels now w hw

theorem init_levels : LevelsInUnit init := by
  simp [LevelsInUnit, init]

/-- C1: after every step of every finite sequence of key-down events, key-up events
and frame ticks applied to the start-up globals, with arbitrary clock values and
random draws, `state.beautyLevel` and `state.targetBeautyLevel` both lie in `[0, 1]`
(`es.take n` is the sequence up to its `n`-th step). -/
theorem C1_levels_stay_in_unit_interval (M : MathLib) (es : List Event) (n : ℕ) :
    0 ≤ (run M init (es.take n)).state.beautyLevel ∧
    (run M init (es.take n)).state.beautyLevel ≤ 1 ∧
    0 ≤ (run M init (es.take n)).state.targetBeautyLevel ∧
    (run M init (es.take n)).state.targetBeautyLevel ≤ 1 :=
  run_invariant M LevelsInUnit (step_levels M) init init_levels (es.take n)

/-! ## The population of painters -/

theorem activationPass_length (draw : ℕ → ℚ) (i : ℕ) (ps : List LightPainter) :
    (activationPass draw i ps).length = ps.length := by
  induction ps generalizing i with
  | nil => rfl
  | cons p ps ih => simp [activationPass, ih]

theorem spawnPainter_painters_of_eq (M : MathLib) (d : KeyDraws) (w v : World)
    (hp : v.painters = w.painters) (hc : v.state.paintersCreated = w.state.paintersCreated) :
    (spawnPainter M d v).painters = (spawnPainter M d w).painters := by
  unfold spawnPainter
  rw [hc]
  split <;> simp [hp]

theorem spawnPainter_paintersCreated_of_eq (M : MathLib) (d : KeyDraws) (w v : World)
    (hc : v.state.paintersCreated = w.state.paintersCreated) :
    (spawnPainter M d v).state.paintersCreated = (spawnPainter M d w).state.paintersCreated := by
  unfold spawnPainter
  rw [hc]
  split <;> simp [hc]

/-- The painters after a non-reserved key-down: the activation pass applied to the
result of the spawn step. -/
theorem handleKeyPress_painters (M : MathLib) (ev : KeyEvent) (now : ℤ) (d : KeyDraws)
    (w : World) (h : isReserved ev = false) :
    (handleKeyPress M ev now d w).painters
      = activationPass d.activation 0 (spawnPainter M d w).painters := by
  unfold handleKeyPress
  rw [if_neg (by simp [h])]
  dsimp only
  split <;>
    exact congrArg (activationPass d.activation 0) (spawnPainter_painters_of_eq M d w _ rfl rfl)

theorem handleKeyPress_paintersCreated (M : MathLib) (ev : KeyEvent) (now : ℤ) (d : KeyDraws)
    (w : World) (h : isReserved ev = false) :
    (handleKeyPress M ev now d w).state.paintersCreated
      = (spawnPainter M d w).state.paintersCreated := by
  unfold handleKeyPress
  rw [if_neg (by simp [h])]
  dsimp only
  split <;> exact spawnPainter_paintersCreated_of_eq M d w _ rfl

theorem spawnPainter_population (M : MathLib) (d : KeyDraws) (w : World) (hw : PopulationOk w) :
    PopulationOk (spawnPainter M d w) := by
  obtain ⟨h1, h2⟩ := hw
  unfold spawnPainter PopulationOk
  split
  · rename_i h
    simp only [List.length_append, List.length_singleton, h1, true_and]
    exact h.1
  · exact ⟨h1, h2⟩

theorem step_population (M : MathLib) (w : World) (e : Event) (hw : PopulationOk w) :
    PopulationOk (step M w e) := by
  cases e with
  | keydown ev now d =>
    cases h : isReserved ev with
    | true => simp only [step]; rw [handleKeyPress_reserved M ev now d w h]; exact hw
    | false =>
      have hs := spawnPainter_population M d w hw
      simp only [step, PopulationOk]
      rw [handleKeyPress_painters M ev now d w h, handleKeyPress_paintersCreated M ev now d w h,
        activationPass_length]
      exact hs
  | keyup ev now => exact hw
  | tick timestamp now =>
    obtain ⟨h1, h2⟩ := hw
    have hp : (step M w (.tick timestamp now)).painters.length = w.painters.length := by
      simp [step, animate, updateState_painters]
    have hc : (step M w (.tick timestamp now)).state.paintersCreated
        = w.state.paintersCreated := by
      simp only [step, animate_state]
      unfold updateState
      simp only
      split <;> split <;> (try split) <;> simp_all
    exact ⟨by rw [hp, hc]; exact h1, by rw [hc]; exact h2⟩

theorem init_population : PopulationOk init := by
  simp [PopulationOk, init]

/-- C2: after every step of every finite sequence of key events and ticks from the
start-up globals, for every outcome of the random draws, `painters.length` equals
`state.paintersCreated` and does not exceed `MAX_PAINTERS = 30`. -/
theorem C2_population_bounded (M : MathLib) (es : List Event) (n : ℕ) :
    (run M init (es.take n)).painters.length = (run M init (es.take n)).state.paintersCreated ∧
    (run M init (es.take n)).painters.length ≤ CONFIG.MAX_PAINTERS ∧
    CONFIG.MAX_PAINTERS = 30 := by
  have h := run_invariant M PopulationOk (step_population M) init init_population (es.take n)
  exact ⟨h.1, h.1 ▸ h.2, rfl⟩

/-! ## Every painter in the population is active -/

theorem activationPass_of_allActive (draw : ℕ → ℚ) (i : ℕ) (ps : List LightPainter)
    (h : AllActive ps) : activationPass draw i ps = ps := by
  induction ps generalizing i with
  | nil => rfl
  | cons p ps ih =>
    have hp : p.active = true := h p (List.mem_cons_self _ _)
    have hps : AllActive ps := fun q hq => h q (List.mem_cons_of_mem _ hq)
    simp [activationPass, hp, ih (i + 1) hps]

theorem spawnPainter_allActive (M : MathLib) (d : KeyDraws) (w : World)
    (hw : AllActive w.painters) : AllActive (spawnPainter M d w).painters := by
  unfold spawnPainter
  split
  · intro p hp
    simp only [List.mem_append, List.mem_singleton] at hp
    rcases hp with hp | hp
    · exact hw p hp
    · rw [hp]; rfl
  · exact hw

theorem step_allActive (M : MathLib) (w : World) (e : Event) (hw : AllActive w.painters) :
    AllActive (step M w e).painters := by
  cases e with
  | keydown ev now d =>
    cases h : isReserved ev with
    | true => simp only [step]; rw [handleKeyPress_reserved M ev now d w h]; exact hw
    | false =>
      have hs := spawnPainter_allActive M d w hw
      simp only [step]
      rw [handleKeyPress_painters M ev now d w h, activationPass_of_allActive _ _ _ hs]
      exact hs
  | keyup ev now => exact hw
  | tick timestamp now =>
    intro p hp
    simp only [step, animate, updateState_painters, List.mem_map] at hp
    obtain ⟨q, hq, rfl⟩ := hp
    rw [update_active]
    exact hw q hq

theorem run_allActive (M : MathLib) (es : List Event) : AllActive (run M init es).painters :=
  run_invariant M (fun w => AllActive w.painters) (step_allActive M) init
    (fun _ hp => absurd hp (List.not_mem_nil _)) es

/-- C10: in every state reachable from the start-up globals by key events and ticks,
every painter of `painters` has `active = true`; consequently the activation pass of
`handleKeyPress` returns the list it receives from the spawn step unchanged, for every
outcome of the random draws, and the painters after the handler are those after the
spawn step. -/
theorem C10_painters_always_active (M : MathLib) (es : List Event) :
    (run M init es).painters.all (fun p => p.active) = true ∧
    (∀ (d : KeyDraws) (draw : ℕ → ℚ) (i : ℕ),
      activationPass draw i (spawnPainter M d (run M init es)).painters
        = (spawnPainter M d (run M init es)).painters) ∧
    (∀ (ev : KeyEvent) (now : ℤ) (d : KeyDraws),
      (handleKeyPress M ev now d (run M init es)).painters
        = if isReserved ev then (run M init es).painters
          else (spawnPainter M d (run M init es)).painters) := by
  have h := run_allActive M es
  refine ⟨?_, ?_, ?_⟩
  · rw [List.all_eq_true]
    intro p hp
    exact h p hp
  · intro d draw i
    exact activationPass_of_allActive _ _ _ (spawnPainter_allActive M d _ h)
  · intro ev now d
    cases hr : isReserved ev with
    | true => rw [handleKeyPress_reserved M ev now d _ hr]; rfl
    | false =>
      rw [handleKeyPress_painters M ev now d _ hr,
        activationPass_of_allActive _ _ _ (spawnPainter_allActive M d _ h)]
      rfl

/-! ## What one call of `updateState` does -/

/-- The result of `updateState` while typing is still active: only the level moves. -/
theorem updateState_of_stillTyping (now : ℤ) (w : World) (h : stillTyping now w = true) :
    updateState now w =
      { w with
        state := { w.state with
          beautyLevel := MathUtils.lerp w.state.beautyLevel w.state.targetBeautyLevel
            CONFIG.FADE_IN_SPEED }
        progressWidth := MathUtils.lerp w.state.beautyLevel w.state.targetBeautyLevel
            CONFIG.FADE_IN_SPEED * 100 } := by
  obtain ⟨⟨bl, ty, last, kc, t, pc⟩, ps, mh, ta, qv, pw⟩ := w
  simp only [stillTyping, Bool.and_eq_true, decide_eq_true_eq] at h
  obtain ⟨h1, h2⟩ := h
  have h3 : ¬ (now - last > CONFIG.TYPING_TIMEOUT) := not_lt.2 h2
  subst h1
  simp only [updateState, h3, and_false, if_false, if_true]

/-- The result of `updateState` once typing is over (already idle, or timed out now). -/
theorem updateState_of_not_stillTyping (now : ℤ) (w : World) (h : stillTyping now w = false) :
    updateState now w =
      { state := { w.state with
          isTyping := false
          targetBeautyLevel := max 0 (w.state.targetBeautyLevel - 0.008)
          beautyLevel := MathUtils.lerp w.state.beautyLevel
            (max 0 (w.state.targetBeautyLevel - 0.008)) CONFIG.FADE_OUT_SPEED }
        painters := w.painters
        messageHidden := w.messageHidden
        typingActive := if w.state.isTyping then false else w.typingActive
        quoteVisible :=
          if MathUtils.lerp w.state.beautyLevel
            (max 0 (w.state.targetBeautyLevel - 0.008)) CONFIG.FADE_OUT_SPEED < 0.3
          then false else w.quoteVisible
        progressWidth := MathUtils.lerp w.state.beautyLevel
            (max 0 (w.state.targetBeautyLevel - 0.008)) CONFIG.FADE_OUT_SPEED * 100 } := by
  obtain ⟨⟨bl, ty, last, kc, t, pc⟩, ps, mh, ta, qv, pw⟩ := w
  cases ty with
  | false =>
    simp only [updateState, false_and, if_false, Bool.false_eq_true]
    split <;> rfl
  | true =>
    simp only [stillTyping, Bool.true_and, decide_eq_false_iff_not, not_le] at h
    simp only [updateState, h, gt_iff_lt, and_self, if_true, if_false, Bool.false_eq_true]
    split <;> rfl

theorem updateState_isTyping (now : ℤ) (w : World) :
    (updateState now w).state.isTyping = stillTyping now w := by
  cases h : stillTyping now w with
  | true =>
    rw [updateState_of_stillTyping now w h]
    simp only [stillTyping, Bool.and_eq_true] at h
    exact h.1
  | false => rw [updateState_of_not_stillTyping now w h]

theorem updateState_lastTypingTime (now : ℤ) (w : World) :
    (updateState now w).state.lastTypingTime = w.state.lastTypingTime := by
  cases h : stillTyping now w with
  | true => rw [updateState_of_stillTyping now w h]
  | false => rw [updateState_of_not_stillTyping now w h]

theorem updateState_paintersCreated (now : ℤ) (w : World) :
    (updateState now w).state.paintersCreated = w.state.paintersCreated := by
  cases h : stillTyping now w with
  | true => rw [updateState_of_stillTyping now w h]
  | false => rw [updateState_of_not_stillTyping now w h]

theorem updateState_targetBeautyLevel (now : ℤ) (w : World) :
    (updateState now w).state.targetBeautyLevel
      = if stillTyping now w then w.state.targetBeautyLevel
        else max 0 (w.state.targetBeautyLevel - 0.008) := by
  cases h : stillTyping now w with
  | true => rw [updateState_of_stillTyping now w h]; rfl
  | false => rw [updateState_of_not_stillTyping now w h]; rfl

theorem updateState_beautyLevel (now : ℤ) (w : World) :
    (updateState now w).state.beautyLevel
      = if stillTyping now w then
          MathUtils.lerp w.state.beautyLevel w.state.targetBeautyLevel CONFIG.FADE_IN_SPEED
        else
          MathUtils.lerp w.state.beautyLevel (max 0 (w.state.targetBeautyLevel - 0.008))
            CONFIG.FADE_OUT_SPEED := by
  cases h : stillTyping now w with
  | true => rw [updateState_of_stillTyping now w h]; rfl
  | false => rw [updateState_of_not_stillTyping now w h]; rfl

theorem updateState_quoteVisible (now : ℤ) (w : World) :
    (updateState now w).quoteVisible
      = if stillTyping now w then w.quoteVisible
        else if (updateState now w).state.beautyLevel < 0.3 then false else w.quoteVisible := by
  cases h : stillTyping now w with
  | true => rw [updateState_of_stillTyping now w h]; rfl
  | false => rw [updateState_of_not_stillTyping now w h]; rfl

theorem handleKeyPress_quoteVisible (M : MathLib) (ev : KeyEvent) (now : ℤ) (d : KeyDraws)
    (w : World) (h : isReserved ev = false) :
    (handleKeyPress M ev now d w).quoteVisible
      = if w.state.beautyLevel > 0.5 then true else w.quoteVisible := by
  unfold handleKeyPress
  rw [if_neg (by simp [h])]
  dsimp only
  rw [spawnPainter_beautyLevel]
  split <;> simp [spawnPainter_quoteVisible]

theorem handleKeyPress_lastTypingTime (M : MathLib) (ev : KeyEvent) (now : ℤ) (d : KeyDraws)
    (w : World) (h : isReserved ev = false) :
    (handleKeyPress M ev now d w).state.lastTypingTime = now := by
  unfold handleKeyPress
  rw [if_neg (by simp [h])]
  dsimp only
  have hl : ∀ v : World, (spawnPainter M d v).state.lastTypingTime = v.state.lastTypingTime := by
    intro v; unfold spawnPainter; split <;> rfl
  split <;> simp [hl]

/-! ## Reserved key combinations -/

/-- The globals `typingWorld` are reached from start-up by one plain key-down at clock
`0` whose spawn draw is not below `0.3`. -/
theorem typingWorld_reachable (M : MathLib) :
    step M init (.keydown plainKey 0 { zeroDraws with spawn := 1 }) = typingWorld := by
  have h : isReserved plainKey = false := by decide
  simp only [step, handleKeyPress, h, spawnPainter, init, typingWorld]
  norm_num
  rfl

/-- A reserved key-down leaves every global unchanged. -/
theorem keydown_reserved_unchanged (M : MathLib) (ev : KeyEvent) (now : ℤ) (d : KeyDraws)
    (w : World) (h : isReserved ev = true) : step M w (.keydown ev now d) = w :=
  handleKeyPress_reserved M ev now d w h

/-- A key-up writes `lastTypingTime` whatever the key is, and nothing else. -/
theorem keyup_writes_lastTypingTime (M : MathLib) (ev : KeyEvent) (now : ℤ) (w : World) :
    step M w (.keyup ev now) = { w with state := { w.state with lastTypingTime := now } } := rfl

/-- C3 (the code departs from the claim): the key-up of the reserved key `F5` at clock
`1000` changes `state.lastTypingTime` from `0` to `1000`; and after a plain key-down at
clock `0`, an `F5` key-up at clock `1900` keeps `isTyping` true at the tick of clock
`2500`, where without it the tick ends typing. -/
theorem C3_reserved_keyup_changes_state :
    isReserved f5Key = true ∧
    init.state.lastTypingTime = 0 ∧
    (step flatMath init (.keyup f5Key 1000)).state.lastTypingTime = 1000 ∧
    (run flatMath typingWorld [.keyup f5Key 1900, .tick 0 2500]).state.isTyping = true ∧
    (run flatMath typingWorld [.tick 0 2500]).state.isTyping = false := by
  refine ⟨by decide, rfl, rfl, ?_, ?_⟩
  · show (updateState 2500 (handleKeyRelease 1900 typingWorld)).state.isTyping = true
    rw [updateState_isTyping]
    decide
  · show (updateState 2500 typingWorld).state.isTyping = false
    rw [updateState_isTyping]
    decide

/-! ## Quote visibility -/

theorem step_keydown_quoteVisible (M : MathLib) (w : World) (ev : KeyEvent) (now : ℤ)
    (d : KeyDraws) (h : isReserved ev = false) :
    (step M w (.keydown ev now d)).quoteVisible
      = if w.state.beautyLevel > 0.5 then true else w.quoteVisible :=
  handleKeyPress_quoteVisible M ev now d w h

theorem step_keydown_beautyLevel (M : MathLib) (w : World) (ev : KeyEvent) (now : ℤ)
    (d : KeyDraws) :
    (step M w (.keydown ev now d)).state.beautyLevel = w.state.beautyLevel :=
  handleKeyPress_beautyLevel M ev now d w

theorem step_tick_isTyping (M : MathLib) (w : World) (ts : ℚ) (now : ℤ) :
    (step M w (.tick ts now)).state.isTyping = stillTyping now w :=
  updateState_isTyping now w

theorem step_tick_quoteVisible (M : MathLib) (w : World) (ts : ℚ) (now : ℤ) :
    (step M w (.tick ts now)).quoteVisible
      = if stillTyping now w then w.quoteVisible
        else if (step M w (.tick ts now)).state.beautyLevel < 0.3 then false
          else w.quoteVisible :=
  updateState_quoteVisible now w

/-- A frame never shows the quote. -/
theorem tick_never_shows (M : MathLib) (w : World) (ts : ℚ) (now : ℤ)
    (h : (step M w (.tick ts now)).quoteVisible = true) : w.quoteVisible = true := by
  rw [step_tick_quoteVisible] at h
  split at h
  · exact h
  · split at h
    · cases h
    · exact h

/-- A key-down never hides the quote. -/
theorem keydown_never_hides (M : MathLib) (w : World) (ev : KeyEvent) (now : ℤ) (d : KeyDraws)
    (h : w.quoteVisible = true) : (step M w (.keydown ev now d)).quoteVisible = true := by
  cases hr : isReserved ev with
  | true => rw [keydown_reserved_unchanged M ev now d w hr]; exact h
  | false =>
    rw [step_keydown_quoteVisible M w ev now d hr]
    split
    · rfl
    · exact h

/-- The quote turns from hidden to shown exactly in a non-reserved key-down taken at a
level above `0.5`. -/
theorem quote_shown_iff (M : MathLib) (w : World) (e : Event) :
    (w.quoteVisible = false ∧ (step M w e).quoteVisible = true) ↔
      (w.quoteVisible = false ∧ ∃ ev now d, e = .keydown ev now d ∧ isReserved ev = false ∧
        0.5 < w.state.beautyLevel) := by
  constructor
  · rintro ⟨h1, h2⟩
    refine ⟨h1, ?_⟩
    cases e with
    | keydown ev now d =>
      cases hr : isReserved ev with
      | true =>
        rw [keydown_reserved_unchanged M ev now d w hr, h1] at h2
        cases h2
      | false =>
        rw [step_keydown_quoteVisible M w ev now d hr] at h2
        by_cases hb : w.state.beautyLevel > 0.5
        · exact ⟨ev, now, d, rfl, hr, hb⟩
        · rw [if_neg hb, h1] at h2
          cases h2
    | keyup ev now =>
      change w.quoteVisible = true at h2
      rw [h1] at h2
      cases h2
    | tick ts now =>
      have := tick_never_shows M w ts now h2
      rw [h1] at this
      cases this
  · rintro ⟨h1, ev, now, d, rfl, hr, hb⟩
    refine ⟨h1, ?_⟩
    rw [step_keydown_quoteVisible M w ev now d hr, if_pos hb]

/-- The quote turns from shown to hidden exactly in a frame that ends with typing
inactive and the level below `0.3`. -/
theorem quote_hidden_iff (M : MathLib) (w : World) (e : Event) :
    (w.quoteVisible = true ∧ (step M w e).quoteVisible = false) ↔
      (w.quoteVisible = true ∧ ∃ ts now, e = .tick ts now ∧
        (step M w e).state.isTyping = false ∧ (step M w e).state.beautyLevel < 0.3) := by
  constructor
  · rintro ⟨h1, h2⟩
    refine ⟨h1, ?_⟩
    cases e with
    | keydown ev now d =>
      rw [keydown_never_hides M w ev now d h1] at h2
      cases h2
    | keyup ev now =>
      change w.quoteVisible = false at h2
      rw [h1] at h2
      cases h2
    | tick ts now =>
      refine ⟨ts, now, rfl, ?_⟩
      rw [step_tick_quoteVisible] at h2
      rw [step_tick_isTyping]
      cases hs : stillTyping now w with
      | true =>
        rw [hs, if_pos rfl, h1] at h2
        cases h2
      | false =>
        rw [hs, if_neg (by decide)] at h2
        refine ⟨rfl, ?_⟩
        by_contra hb
        rw [if_neg hb, h1] at h2
        cases h2
  · rintro ⟨h1, ts, now, rfl, ht, hb⟩
    refine ⟨h1, ?_⟩
    rw [step_tick_isTyping] at ht
    rw [step_tick_quoteVisible, ht, if_neg (by decide), if_pos hb]

/-- C4 as stated fails, on runs from the start-up globals. After fifty key-downs and
`120` frames within the typing timeout (`risingRun`) the level is at least `0.5` and
the quote is still hidden: reaching `0.5` does not show it. After one more key-down
(which shows the quote) and `186` idle frames (`fadingRun`) the level lies in
`[0.3, 0.5)` with the quote shown, and the next frame, taken at that level, hides it. -/
theorem C4_quote_claim_fails :
    0.5 ≤ (run flatMath init risingRun).state.beautyLevel ∧
    (run flatMath init risingRun).quoteVisible = false ∧
    0.3 ≤ (run flatMath init fadingRun).state.beautyLevel ∧
    (run flatMath init fadingRun).state.beautyLevel < 0.5 ∧
    (run flatMath init fadingRun).quoteVisible = true ∧
    (step flatMath (run flatMath init fadingRun) (.tick 0 10000)).quoteVisible = false := by
  decide!

/-- C4, amended: in every state, reachable or not, the quote-visibility flag turns true
exactly in a non-reserved key-down taken at `beautyLevel > 0.5` (a frame never shows
the quote), and turns false exactly in a frame that ends with typing inactive and
`beautyLevel < 0.3`; hence it turns true only at a level above `0.5`, turns false only
at a level below `0.3`, and no step that ends with `0.3 <= beautyLevel <= 0.5` changes
it in either direction, where `beautyLevel` is the value after the step, the value
the handler tests. -/
theorem C4_quote_flag_transitions (M : MathLib) (w : World) (e : Event) :
    ((w.quoteVisible = false ∧ (step M w e).quoteVisible = true) ↔
      (w.quoteVisible = false ∧ ∃ ev now d, e = .keydown ev now d ∧ isReserved ev = false ∧
        0.5 < w.state.beautyLevel)) ∧
    ((w.quoteVisible = true ∧ (step M w e).quoteVisible = false) ↔
      (w.quoteVisible = true ∧ ∃ ts now, e = .tick ts now ∧
        (step M w e).state.isTyping = false ∧ (step M w e).state.beautyLevel < 0.3)) ∧
    (w.quoteVisible = false → (step M w e).quoteVisible = true →
      0.5 < (step M w e).state.beautyLevel) ∧
    (w.quoteVisible = true → (step M w e).quoteVisible = false →
      (step M w e).state.beautyLevel < 0.3) ∧
    (0.3 ≤ (step M w e).state.beautyLevel → (step M w e).state.beautyLevel ≤ 0.5 →
      (step M w e).quoteVisible = w.quoteVisible) := by
  have hS := quote_shown_iff M w e
  have hH := quote_hidden_iff M w e
  have hup : w.quoteVisible = false → (step M w e).quoteVisible = true →
      0.5 < (step M w e).state.beautyLevel := by
    intro h1 h2
    obtain ⟨_, ev, now, d, rfl, _, hb⟩ := hS.1 ⟨h1, h2⟩
    rw [step_keydown_beautyLevel]
    exact hb
  have hdown : w.quoteVisible = true → (step M w e).quoteVisible = false →
      (step M w e).state.beautyLevel < 0.3 := by
    intro h1 h2
    obtain ⟨_, ts, now, _, _, hb⟩ := hH.1 ⟨h1, h2⟩
    exact hb
  refine ⟨hS, hH, hup, hdown, ?_⟩
  intro h3 h5
  cases hq : w.quoteVisible with
  | false =>
    cases hq2 : (step M w e).quoteVisible with
    | false => rfl
    | true => exact absurd (hup hq hq2) (not_lt.2 h5)
  | true =>
    cases hq2 : (step M w e).quoteVisible with
    | false => exact absurd (hdown hq hq2) (not_lt.2 h3)
    | true => rfl

theorem idleWorld_tick_beautyLevel (b : ℚ) :
    (step flatMath (idleWorld b) (.tick 0 0)).state.beautyLevel = 0.99 * b := by
  show (updateState 0 (idleWorld b)).state.beautyLevel = 0.99 * b
  rw [updateState_beautyLevel, if_neg (by simp [stillTyping, idleWorld, init])]
  norm_num [idleWorld, init, MathUtils.lerp, CONFIG.FADE_OUT_SPEED]

theorem idleWorld_tick_quoteVisible (b : ℚ) :
    (step flatMath (idleWorld b) (.tick 0 0)).quoteVisible
      = if 0.99 * b < 0.3 then false else true := by
  show (updateState 0 (idleWorld b)).quoteVisible = _
  rw [updateState_quoteVisible, if_neg (by simp [stillTyping, idleWorld, init])]
  have h := idleWorld_tick_beautyLevel b
  change (updateState 0 (idleWorld b)).state.beautyLevel = 0.99 * b at h
  rw [h]
  rfl

/-- C4, amended, at concrete states: a key-down at level `0.6` shows the quote, an idle
frame from level `0.2` hides it, and an idle frame from level `0.4` leaves it shown. -/
theorem C4_quote_flag_transitions_witness :
    (brightWorld.quoteVisible = false ∧
      (step flatMath brightWorld (.keydown plainKey 0 zeroDraws)).quoteVisible = true) ∧
    (step flatMath (idleWorld 0.2) (.tick 0 0)).state.beautyLevel < 0.3 ∧
    (step flatMath (idleWorld 0.4) (.tick 0 0)).quoteVisible = (idleWorld 0.4).quoteVisible := by
  refine ⟨(C4_quote_flag_transitions flatMath brightWorld (.keydown plainKey 0 zeroDraws)).1.2
      ⟨rfl, plainKey, 0, zeroDraws, rfl, by decide, by norm_num [brightWorld, init]⟩,
    (C4_quote_flag_transitions flatMath (idleWorld 0.2) (.tick 0 0)).2.2.2.1 rfl ?_,
    (C4_quote_flag_transitions flatMath (idleWorld 0.4) (.tick 0 0)).2.2.2.2 ?_ ?_⟩
  · rw [idleWorld_tick_quoteVisible]; norm_num
  · rw [idleWorld_tick_beautyLevel]; norm_num
  · rw [idleWorld_tick_beautyLevel]; norm_num

/-! ## One key-down followed by one tick -/

theorem lerp_eq_add (x y t : ℚ) : MathUtils.lerp x y t = x + t * (y - x) := by
  unfold MathUtils.lerp; ring

/-- C5: from every state, a non-reserved key-down sets `isTyping = true` and
`targetBeautyLevel = min(1, targetBeautyLevel + 0.02)` and leaves `beautyLevel`
unchanged; a following tick whose clock is within the typing timeout of the key-down
keeps the target and sets `beautyLevel = beautyLevel + 0.03 * (targetBeautyLevel - beautyLevel)`.
In particular from `beautyLevel = 0`, `targetBeautyLevel = 0` the key-down and the tick
give `targetBeautyLevel = 0.02` and `beautyLevel = 0.0006`. -/
theorem C5_keydown_then_tick (M : MathLib) (w : World) (ev : KeyEvent) (now : ℤ) (d : KeyDraws)
    (timestamp : ℚ) (tickNow : ℤ) (hev : isReserved ev = false)
    (hin : tickNow - now ≤ CONFIG.TYPING_TIMEOUT) :
    (step M w (.keydown ev now d)).state.isTyping = true ∧
    (step M w (.keydown ev now d)).state.targetBeautyLevel
      = min 1 (w.state.targetBeautyLevel + 0.02) ∧
    (step M w (.keydown ev now d)).state.beautyLevel = w.state.beautyLevel ∧
    (run M w [.keydown ev now d, .tick timestamp tickNow]).state.targetBeautyLevel
      = (step M w (.keydown ev now d)).state.targetBeautyLevel ∧
    (run M w [.keydown ev now d, .tick timestamp tickNow]).state.beautyLevel
      = (step M w (.keydown ev now d)).state.beautyLevel
        + 0.03 * ((step M w (.keydown ev now d)).state.targetBeautyLevel
          - (step M w (.keydown ev now d)).state.beautyLevel) ∧
    (w.state.beautyLevel = 0 → w.state.targetBeautyLevel = 0 →
      (run M w [.keydown ev now d, .tick timestamp tickNow]).state.targetBeautyLevel = 0.02 ∧
      (run M w [.keydown ev now d, .tick timestamp tickNow]).state.beautyLevel = 0.0006) := by
  have hT := handleKeyPress_isTyping M ev now d w hev
  have hL := handleKeyPress_lastTypingTime M ev now d w hev
  have hB := handleKeyPress_beautyLevel M ev now d w
  have hG := handleKeyPress_targetBeautyLevel M ev now d w hev
  have hS : stillTyping tickNow (handleKeyPress M ev now d w) = true := by
    simp only [stillTyping, hT, hL, Bool.true_and, decide_eq_true_eq]
    exact hin
  have hG2 : (updateState tickNow (handleKeyPress M ev now d w)).state.targetBeautyLevel
      = (handleKeyPress M ev now d w).state.targetBeautyLevel := by
    rw [updateState_targetBeautyLevel, hS, if_pos rfl]
  have hB2 : (updateState tickNow (handleKeyPress M ev now d w)).state.beautyLevel
      = (handleKeyPress M ev now d w).state.beautyLevel
        + 0.03 * ((handleKeyPress M ev now d w).state.targetBeautyLevel
          - (handleKeyPress M ev now d w).state.beautyLevel) := by
    rw [updateState_beautyLevel, hS, if_pos rfl, lerp_eq_add]
    rfl
  refine ⟨hT, hG, hB, hG2, hB2, ?_⟩
  intro h0 h1
  constructor
  · show (updateState tickNow (handleKeyPress M ev now d w)).state.targetBeautyLevel = 0.02
    rw [hG2, hG, h1]
    norm_num
  · show (updateState tickNow (handleKeyPress M ev now d w)).state.beautyLevel = 0.0006
    rw [hB2, hG, hB, h0, h1]
    norm_num

/-- C5 at the start-up globals: a plain key-down at clock `0` and a tick at clock `16`
give `targetBeautyLevel = 0.02` and `beautyLevel = 0.0006`. -/
theorem C5_keydown_then_tick_witness :
    (run flatMath init [.keydown plainKey 0 zeroDraws, .tick 16 16]).state.targetBeautyLevel
      = 0.02 ∧
    (run flatMath init [.keydown plainKey 0 zeroDraws, .tick 16 16]).state.beautyLevel
      = 0.0006 :=
  (C5_keydown_then_tick flatMath init plainKey 0 zeroDraws 16 16 (by decide)
    (by decide)).2.2.2.2.2 rfl rfl

/-! ## Silence after typing -/

theorem tickEvents_append (xs ys : List (ℚ × ℤ)) :
    tickEvents (xs ++ ys) = tickEvents xs ++ tickEvents ys := by
  simp [tickEvents]

theorem max_zero_sub_max (a c : ℚ) (hc : 0 ≤ c) : max 0 (max 0 a - c) = max 0 (a - c) := by
  rcases le_total a 0 with h | h
  · rw [max_eq_left h, max_eq_left (by linarith), max_eq_left (by linarith)]
  · rw [max_eq_right h]

/-- While every tick is within the timeout, typing stays active and neither the
timestamp of the last input nor the target moves. -/
theorem run_ticks_typing (M : MathLib) (pre : List (ℚ × ℤ)) (w : World)
    (hty : w.state.isTyping = true)
    (hpre : ∀ n ∈ pre, n.2 - w.state.lastTypingTime ≤ CONFIG.TYPING_TIMEOUT) :
    (run M w (tickEvents pre)).state.isTyping = true ∧
    (run M w (tickEvents pre)).state.lastTypingTime = w.state.lastTypingTime ∧
    (run M w (tickEvents pre)).state.targetBeautyLevel = w.state.targetBeautyLevel := by
  induction pre generalizing w with
  | nil => exact ⟨hty, rfl, rfl⟩
  | cons n pre ih =>
    have hs : stillTyping n.2 w = true := by
      simp only [stillTyping, hty, Bool.true_and, decide_eq_true_eq]
      exact hpre n (List.mem_cons_self _ _)
    have h1 : (step M w (.tick n.1 n.2)).state.isTyping = true := by
      show (updateState n.2 w).state.isTyping = true
      rw [updateState_isTyping, hs]
    have h2 : (step M w (.tick n.1 n.2)).state.lastTypingTime = w.state.lastTypingTime :=
      updateState_lastTypingTime n.2 w
    have h3 : (step M w (.tick n.1 n.2)).state.targetBeautyLevel
        = w.state.targetBeautyLevel := by
      show (updateState n.2 w).state.targetBeautyLevel = _
      rw [updateState_targetBeautyLevel, hs, if_pos rfl]
    have := ih (step M w (.tick n.1 n.2)) h1
      (fun m hm => by rw [h2]; exact hpre m (List.mem_cons_of_mem _ hm))
    simp only [tickEvents, List.map_cons, run_cons]
    rw [← h2, ← h3]
    exact this

/-- One tick once typing is over (already idle, or timed out at this tick). -/
theorem tick_not_stillTyping (M : MathLib) (n : ℚ × ℤ) (w : World)
    (hs : stillTyping n.2 w = false) :
    (step M w (.tick n.1 n.2)).state.isTyping = false ∧
    (step M w (.tick n.1 n.2)).state.targetBeautyLevel
      = max 0 (w.state.targetBeautyLevel - 0.008) := by
  constructor
  · show (updateState n.2 w).state.isTyping = false
    rw [updateState_isTyping, hs]
  · show (updateState n.2 w).state.targetBeautyLevel = _
    rw [updateState_targetBeautyLevel, hs, if_neg (by decide)]

/-- Once typing is over, every tick keeps it over and takes `0.008` off the target,
down to zero. -/
theorem run_ticks_idle (M : MathLib) (post : List (ℚ × ℤ)) (w : World)
    (hty : w.state.isTyping = false) (h0 : 0 ≤ w.state.targetBeautyLevel) :
    (run M w (tickEvents post)).state.isTyping = false ∧
    (run M w (tickEvents post)).state.targetBeautyLevel
      = max 0 (w.state.targetBeautyLevel - 0.008 * (post.length : ℚ)) := by
  induction post generalizing w with
  | nil =>
    refine ⟨hty, ?_⟩
    show w.state.targetBeautyLevel = _
    rw [List.length_nil, Nat.cast_zero, mul_zero, sub_zero, max_eq_right h0]
  | cons n post ih =>
    have hs : stillTyping n.2 w = false := by simp [stillTyping, hty]
    obtain ⟨h1, h2⟩ := tick_not_stillTyping M n w hs
    have h3 : 0 ≤ (step M w (.tick n.1 n.2)).state.targetBeautyLevel := by
      rw [h2]; exact le_max_left _ _
    obtain ⟨i1, i2⟩ := ih (step M w (.tick n.1 n.2)) h1 h3
    simp only [tickEvents, List.map_cons, run_cons]
    refine ⟨i1, ?_⟩
    have hc : (0 : ℚ) ≤ 0.008 * (post.length : ℚ) :=
      mul_nonneg (by norm_num) (Nat.cast_nonneg _)
    change (run M (step M w (.tick n.1 n.2)) (tickEvents post)).state.targetBeautyLevel = _
    rw [i2, h2, max_zero_sub_max _ _ hc, List.length_cons, Nat.cast_succ]
    congr 1
    ring

/-- C6: from every state with `isTyping = true`, for every run of ticks with no key
event in between, made of ticks `pre` whose clock is at most `lastTypingTime + 2000`
(exactly `2000` included), then a tick with `now - lastTypingTime > 2000`, then any
ticks `post`: `isTyping` is still true after each tick of `pre` (and the target is
untouched), it is false after the late tick and after every later tick; the late tick
and every later tick replace `targetBeautyLevel` by `max(0, targetBeautyLevel - 0.008)`,
so the target decreases by exactly `0.008` per tick while it is at least `0.008`, is
`max(0, t - 0.008 * m)` after `m` such ticks, hence `0` as soon as `0.008 * m >= t`,
and stays `0` afterwards. -/
theorem C6_timeout_then_decay (M : MathLib) (w : World) (pre : List (ℚ × ℤ)) (ts : ℚ)
    (now : ℤ) (post : List (ℚ × ℤ)) (hty : w.state.isTyping = true)
    (hpre : ∀ n ∈ pre, n.2 - w.state.lastTypingTime ≤ 2000)
    (hnow : now - w.state.lastTypingTime > 2000) :
    (∀ k, (run M w (tickEvents (pre.take k))).state.isTyping = true ∧
      (run M w (tickEvents (pre.take k))).state.targetBeautyLevel
        = w.state.targetBeautyLevel) ∧
    (∀ k, (run M w (tickEvents (pre ++ (ts, now) :: post.take k))).state.isTyping = false) ∧
    (run M w (tickEvents (pre ++ [(ts, now)]))).state.targetBeautyLevel
      = max 0 ((run M w (tickEvents pre)).state.targetBeautyLevel - 0.008) ∧
    (∀ k, k < post.length →
      (run M w (tickEvents (pre ++ (ts, now) :: post.take (k + 1)))).state.targetBeautyLevel
        = max 0 ((run M w (tickEvents (pre ++ (ts, now) :: post.take k))).state.targetBeautyLevel
            - 0.008)) ∧
    (∀ k, k < post.length →
      0.008 ≤ (run M w (tickEvents (pre ++ (ts, now) :: post.take k))).state.targetBeautyLevel →
      (run M w (tickEvents (pre ++ (ts, now) :: post.take (k + 1)))).state.targetBeautyLevel
        = (run M w (tickEvents (pre ++ (ts, now) :: post.take k))).state.targetBeautyLevel
            - 0.008) ∧
    (∀ k, k ≤ post.length →
      (run M w (tickEvents (pre ++ (ts, now) :: post.take k))).state.targetBeautyLevel
        = max 0 (w.state.targetBeautyLevel - 0.008 * ((k : ℚ) + 1))) ∧
    (∀ k, k ≤ post.length → w.state.targetBeautyLevel ≤ 0.008 * ((k : ℚ) + 1) →
      (run M w (tickEvents (pre ++ (ts, now) :: post.take k))).state.targetBeautyLevel = 0) := by
  have hA : ∀ k, (run M w (tickEvents (pre.take k))).state.isTyping = true ∧
      (run M w (tickEvents (pre.take k))).state.lastTypingTime = w.state.lastTypingTime ∧
      (run M w (tickEvents (pre.take k))).state.targetBeautyLevel
        = w.state.targetBeautyLevel := fun k =>
    run_ticks_typing M (pre.take k) w hty (fun n hn => hpre n (List.mem_of_mem_take hn))
  obtain ⟨a1, a2, a3⟩ := run_ticks_typing M pre w hty hpre
  have hs : stillTyping (ts, now).2 (run M w (tickEvents pre)) = false := by
    simp only [stillTyping, a1, a2, Bool.true_and, decide_eq_false_iff_not, not_le]
    exact hnow
  obtain ⟨f1, f2⟩ := tick_not_stillTyping M (ts, now) (run M w (tickEvents pre)) hs
  have f3 : 0 ≤ (step M (run M w (tickEvents pre)) (.tick ts now)).state.targetBeautyLevel := by
    rw [f2]; exact le_max_left _ _
  have hsplit : ∀ rest : List (ℚ × ℤ), run M w (tickEvents (pre ++ (ts, now) :: rest))
      = run M (step M (run M w (tickEvents pre)) (.tick ts now)) (tickEvents rest) := by
    intro rest
    rw [tickEvents_append, run_append]
    rfl
  have hB : ∀ k, k ≤ post.length →
      (run M w (tickEvents (pre ++ (ts, now) :: post.take k))).state.targetBeautyLevel
        = max 0 (w.state.targetBeautyLevel - 0.008 * ((k : ℚ) + 1)) := by
    intro k hk
    rw [hsplit, (run_ticks_idle M (post.take k) _ f1 f3).2, f2, a3,
      max_zero_sub_max _ _ (mul_nonneg (by norm_num) (Nat.cast_nonneg _)),
      List.length_take, min_eq_left hk]
    congr 1
    ring
  have hC : ∀ k, k < post.length →
      (run M w (tickEvents (pre ++ (ts, now) :: post.take (k + 1)))).state.targetBeautyLevel
        = max 0 ((run M w (tickEvents (pre ++ (ts, now) :: post.take k))).state.targetBeautyLevel
            - 0.008) := by
    intro k hk
    rw [hB (k + 1) hk, hB k (le_of_lt hk), max_zero_sub_max _ _ (by norm_num), Nat.cast_succ]
    congr 1
    ring
  refine ⟨fun k => ⟨(hA k).1, (hA k).2.2⟩, fun k => ?_, ?_, hC, ?_, hB, ?_⟩
  · rw [hsplit]
    exact (run_ticks_idle M (post.take k) _ f1 f3).1
  · rw [hsplit []]
    exact f2
  · intro k hk hge
    rw [hC k hk]
    exact max_eq_right (by linarith)
  · intro k hk hle
    rw [hB k hk]
    exact max_eq_left (by linarith)

/-- C6 at a concrete run: after a plain key-down at clock `0`, ticks at clocks `1000`
and `2000` keep typing active, the tick at clock `2001` ends it, and with two more
ticks the target `0.02` has been brought to `0`. -/
theorem C6_timeout_then_decay_witness :
    (run flatMath typingWorld
      (tickEvents ([(1, 1000), (2, 2000)] ++ (3, 2001) :: [(4, 3000), (5, 3016)].take 2))
      ).state.targetBeautyLevel = 0 :=
  (C6_timeout_then_decay flatMath typingWorld [(1, 1000), (2, 2000)] 3 2001
    [(4, 3000), (5, 3016)] rfl (by decide) (by decide)).2.2.2.2.2.2 2 (by decide)
    (by norm_num [typingWorld, init])

/-! ## The trail of a painter -/

theorem getD_set_ne (l : List Vector3) (i j : ℕ) (a d : Vector3) (h : i ≠ j) :
    (l.set i a).getD j d = l.getD j d := by
  simp [List.getD_eq_getElem?_getD, List.getElem?_set_ne h]

theorem getD_set_self (l : List Vector3) (i : ℕ) (a d : Vector3) (h : i < l.length) :
    (l.set i a).getD i d = a := by
  simp [List.getD_eq_getElem?_getD, h]

theorem trailStep_length (n : ℕ) (pts : List Vector3) (i : ℕ) :
    (LightPainter.trailStep n pts i).length = pts.length := by
  simp [LightPainter.trailStep]

/-- The effect of the iterations `s, s + 1, ..., s + m - 1` of the trail loop: the
length is kept, the points outside the range are kept, and each point of the range is
moved toward its predecessor as that predecessor stands after its own iteration. -/
theorem trail_fold (n : ℕ) (m s : ℕ) (pts : List Vector3) (hs : 1 ≤ s)
    (hlen : s + m ≤ pts.length) :
    ((List.range' s m).foldl (LightPainter.trailStep n) pts).length = pts.length ∧
    (∀ j, j < s → ((List.range' s m).foldl (LightPainter.trailStep n) pts).getD j ⟨0, 0, 0⟩
      = pts.getD j ⟨0, 0, 0⟩) ∧
    (∀ j, s + m ≤ j → ((List.range' s m).foldl (LightPainter.trailStep n) pts).getD j ⟨0, 0, 0⟩
      = pts.getD j ⟨0, 0, 0⟩) ∧
    (∀ j, s ≤ j → j < s + m →
      ((List.range' s m).foldl (LightPainter.trailStep n) pts).getD j ⟨0, 0, 0⟩
        = Vector3.lerp (pts.getD j ⟨0, 0, 0⟩)
            (((List.range' s m).foldl (LightPainter.trailStep n) pts).getD (j - 1) ⟨0, 0, 0⟩)
            (LightPainter.lerpFactor n j)) := by
  induction m generalizing s pts with
  | zero =>
    refine ⟨rfl, fun _ _ => rfl, fun _ _ => rfl, fun j h1 h2 => ?_⟩
    omega
  | succ m ih =>
    rw [List.range'_succ, List.foldl_cons]
    have hl1 : (LightPainter.trailStep n pts s).length = pts.length := trailStep_length n pts s
    obtain ⟨i1, i2, i3, i4⟩ := ih (s + 1) (LightPainter.trailStep n pts s) (by omega)
      (by rw [hl1]; omega)
    have hne : ∀ j, j ≠ s → (LightPainter.trailStep n pts s).getD j ⟨0, 0, 0⟩
        = pts.getD j ⟨0, 0, 0⟩ := fun j hj =>
      getD_set_ne pts s j _ _ (fun h => hj h.symm)
    have hself : (LightPainter.trailStep n pts s).getD s ⟨0, 0, 0⟩
        = Vector3.lerp (pts.getD s ⟨0, 0, 0⟩) (pts.getD (s - 1) ⟨0, 0, 0⟩)
            (LightPainter.lerpFactor n s) :=
      getD_set_self pts s _ _ (by omega)
    refine ⟨by rw [i1, hl1], fun j hj => ?_, fun j hj => ?_, fun j h1 h2 => ?_⟩
    · rw [i2 j (by omega), hne j (by omega)]
    · rw [i3 j (by omega), hne j (by omega)]
    · rcases Nat.eq_or_lt_of_le h1 with h | h
      · subst h
        rw [i2 s (by omega), i2 (s - 1) (by omega), hself, hne (s - 1) (by omega)]
      · rw [i4 j (by omega) (by omega), hne j (by omega)]

/-- The factor of the trail loop lies strictly between `0.06` and `0.18`. -/
theorem lerpFactor_bounds (i : ℕ) (h1 : 1 ≤ i) (h2 : i < 80) :
    0.06 < LightPainter.lerpFactor 80 i ∧ LightPainter.lerpFactor 80 i < 0.18 := by
  have a1 : (1 : ℚ) ≤ (i : ℚ) := by exact_mod_cast h1
  have a2 : (i : ℚ) ≤ 79 := by exact_mod_cast Nat.le_of_lt_succ h2
  unfold LightPainter.lerpFactor
  constructor <;> norm_num <;> linarith

/-- The result of `update` on an active painter that is still faint: only the
opacity is written. -/
theorem update_of_faint (M : MathLib) (p : LightPainter) (time g : ℚ) (ha : p.active = true)
    (ho : p.smoothedOpacity g < 0.01) :
    p.update M time g = { p with opacity := p.smoothedOpacity g } := by
  unfold LightPainter.update
  rw [if_neg (by simp [ha])]
  dsimp only
  rw [if_pos ho]

/-- The result of `update` on an active painter that is visible. -/
theorem update_of_visible (M : MathLib) (p : LightPainter) (time g : ℚ) (ha : p.active = true)
    (ho : 0.01 ≤ p.smoothedOpacity g) :
    p.update M time g =
      { p with
        opacity := p.smoothedOpacity g
        progress := jsMod (time * p.speed) 1
        points := LightPainter.trailLoop p.numPoints
          (p.points.set 0
            (LightPainter.headTarget M { p with progress := jsMod (time * p.speed) 1 } time)) } := by
  unfold LightPainter.update
  rw [if_neg (by simp [ha])]
  dsimp only
  rw [if_neg (not_lt.2 ho)]
  rfl

/-- C7: for every active painter with `numPoints = 80` and 80 points whose opacity
after smoothing is at least `0.01`, `update` keeps 80 points, sets `points[0]` to the
new head, and for each `i` in `1..79` sets `points[i]` to
`points[i] + f_i * (points[i-1] - points[i])` with `f_i = 0.18 - (i/80) * 0.12`, where
`points[i-1]` is the value already written in this same call; each `f_i` lies strictly
between `0.06` and `0.18`, so the new point is the convex combination
`(1 - f_i) * old + f_i * predecessor` on the segment between the two. -/
theorem C7_trail_chain (M : MathLib) (p : LightPainter) (time g : ℚ) (ha : p.active = true)
    (ho : 0.01 ≤ p.smoothedOpacity g) (hn : p.numPoints = 80) (hlen : p.points.length = 80) :
    (p.update M time g).points.length = 80 ∧
    (p.update M time g).points.getD 0 ⟨0, 0, 0⟩
      = LightPainter.headTarget M { p with progress := jsMod (time * p.speed) 1 } time ∧
    (∀ i, 1 ≤ i → i < 80 →
      LightPainter.lerpFactor p.numPoints i = 0.18 - ((i : ℚ) / 80) * 0.12 ∧
      0.06 < LightPainter.lerpFactor p.numPoints i ∧
      LightPainter.lerpFactor p.numPoints i < 0.18 ∧
      (p.update M time g).points.getD i ⟨0, 0, 0⟩
        = Vector3.lerp (p.points.getD i ⟨0, 0, 0⟩)
            ((p.update M time g).points.getD (i - 1) ⟨0, 0, 0⟩)
            (LightPainter.lerpFactor p.numPoints i) ∧
      ((p.update M time g).points.getD i ⟨0, 0, 0⟩).x
        = (p.points.getD i ⟨0, 0, 0⟩).x + LightPainter.lerpFactor p.numPoints i
            * (((p.update M time g).points.getD (i - 1) ⟨0, 0, 0⟩).x
              - (p.points.getD i ⟨0, 0, 0⟩).x) ∧
      ((p.update M time g).points.getD i ⟨0, 0, 0⟩).y
        = (p.points.getD i ⟨0, 0, 0⟩).y + LightPainter.lerpFactor p.numPoints i
            * (((p.update M time g).points.getD (i - 1) ⟨0, 0, 0⟩).y
              - (p.points.getD i ⟨0, 0, 0⟩).y) ∧
      ((p.update M time g).points.getD i ⟨0, 0, 0⟩).z
        = (p.points.getD i ⟨0, 0, 0⟩).z + LightPainter.lerpFactor p.numPoints i
            * (((p.update M time g).points.getD (i - 1) ⟨0, 0, 0⟩).z
              - (p.points.getD i ⟨0, 0, 0⟩).z) ∧
      (p.update M time g).points.getD i ⟨0, 0, 0⟩
        = { x := (1 - LightPainter.lerpFactor p.numPoints i) * (p.points.getD i ⟨0, 0, 0⟩).x
              + LightPainter.lerpFactor p.numPoints i
                * ((p.update M time g).points.getD (i - 1) ⟨0, 0, 0⟩).x
            y := (1 - LightPainter.lerpFactor p.numPoints i) * (p.points.getD i ⟨0, 0, 0⟩).y
              + LightPainter.lerpFactor p.numPoints i
                * ((p.update M time g).points.getD (i - 1) ⟨0, 0, 0⟩).y
            z := (1 - LightPainter.lerpFactor p.numPoints i) * (p.points.getD i ⟨0, 0, 0⟩).z
              + LightPainter.lerpFactor p.numPoints i
                * ((p.update M time g).points.getD (i - 1) ⟨0, 0, 0⟩).z }) := by
  have hlen0 : (p.points.set 0
      (LightPainter.headTarget M { p with progress := jsMod (time * p.speed) 1 } time)).length
      = 80 := by rw [List.length_set, hlen]
  obtain ⟨t1, t2, _, t4⟩ := trail_fold 80 79 1 (p.points.set 0
      (LightPainter.headTarget M { p with progress := jsMod (time * p.speed) 1 } time))
    (le_refl 1) (by rw [hlen0])
  have hpts : (p.update M time g).points
      = (List.range' 1 79).foldl (LightPainter.trailStep 80) (p.points.set 0
          (LightPainter.headTarget M { p with progress := jsMod (time * p.speed) 1 } time)) := by
    rw [update_of_visible M p time g ha ho]
    simp only [LightPainter.trailLoop, hn]
  have hf : ∀ i, LightPainter.lerpFactor p.numPoints i = LightPainter.lerpFactor 80 i :=
    fun i => by rw [hn]
  rw [hpts]
  simp only [hf]
  refine ⟨by rw [t1, hlen0], ?_, fun i h1 h2 => ?_⟩
  · rw [t2 0 (by omega)]
    exact getD_set_self _ _ _ _ (by omega)
  · have hb := lerpFactor_bounds i h1 h2
    have hstep := t4 i h1 (by omega)
    rw [getD_set_ne _ 0 i _ _ (by omega)] at hstep
    refine ⟨by simp [LightPainter.lerpFactor], hb.1, hb.2, hstep, ?_, ?_, ?_, ?_⟩
    · rw [hstep]; simp only [Vector3.lerp]; ring
    · rw [hstep]; simp only [Vector3.lerp]; ring
    · rw [hstep]; simp only [Vector3.lerp]; ring
    · rw [hstep]; simp only [Vector3.lerp, Vector3.mk.injEq]
      refine ⟨?_, ?_, ?_⟩ <;> ring

/-- C7 at a concrete painter: a freshly constructed and activated painter updated at
time `0` with global opacity `1` keeps its 80 points. -/
theorem C7_trail_chain_witness : (freshPainter.update flatMath 0 1).points.length = 80 :=
  (C7_trail_chain flatMath freshPainter 0 1 rfl
    (by norm_num [LightPainter.smoothedOpacity, freshPainter, LightPainter.new,
      LightPainter.activate, MathUtils.lerp])
    rfl rfl).1

/-! ## The head of the trail -/

theorem trailStep_getD_zero (n : ℕ) (pts : List Vector3) (i : ℕ) (hi : 1 ≤ i) (d : Vector3) :
    (LightPainter.trailStep n pts i).getD 0 d = pts.getD 0 d :=
  getD_set_ne pts i 0 _ d (by omega)

theorem trail_fold_getD_zero (n m s : ℕ) (pts : List Vector3) (hs : 1 ≤ s) (d : Vector3) :
    ((List.range' s m).foldl (LightPainter.trailStep n) pts).getD 0 d = pts.getD 0 d := by
  induction m generalizing s pts with
  | zero => rfl
  | succ m ih =>
    rw [List.range'_succ, List.foldl_cons, ih (s + 1) _ (by omega),
      trailStep_getD_zero n pts s hs]

/-- The head written by `update` on a visible active painter with at least one point. -/
theorem update_head_of_visible (M : MathLib) (p : LightPainter) (time g : ℚ)
    (ha : p.active = true) (ho : 0.01 ≤ p.smoothedOpacity g) (hne : p.points ≠ []) :
    (p.update M time g).points.getD 0 ⟨0, 0, 0⟩
      = LightPainter.headTarget M { p with progress := jsMod (time * p.speed) 1 } time := by
  rw [update_of_visible M p time g ha ho]
  simp only [LightPainter.trailLoop]
  rw [trail_fold_getD_zero _ _ _ _ (le_refl 1)]
  exact getD_set_self _ _ _ _ (List.length_pos.2 hne)

theorem jsMod_one_of_nonneg (x : ℚ) (hx : 0 ≤ x) : jsMod x 1 = x - (⌊x⌋ : ℚ) := by
  unfold jsMod jsTrunc
  rw [div_one, if_pos hx, one_mul]

theorem jsMod_one_bounds (x : ℚ) (hx : 0 ≤ x) : 0 ≤ jsMod x 1 ∧ jsMod x 1 < 1 := by
  rw [jsMod_one_of_nonneg x hx]
  exact ⟨Int.fract_nonneg x, Int.fract_lt_one x⟩

/-- C8: for every active painter with non-negative `speed` whose opacity after
smoothing is at least `0.01`, and every `time >= 0`, `update` stores
`progress = (time * speed) mod 1`, the fractional part of `time * speed`, in `[0, 1)`;
the head it writes is the jitter added to the point of radius
`targetRadiusBase * (1 - progress)`, angle `angleOffset + progress * 8 * PI` and height
`progress * targetHeight`. In particular `targetRadiusBase = 10`, `targetHeight = 50`,
`angleOffset = 0`, `speed = 0.01` at `time = 50` give progress `0.5`, radius `5`,
angle `4 * PI` and height `25`. -/
theorem C8_spiral_head (M : MathLib) (p : LightPainter) (time g : ℚ) (ha : p.active = true)
    (ho : 0.01 ≤ p.smoothedOpacity g) (ht : 0 ≤ time) (hs : 0 ≤ p.speed) (hne : p.points ≠ []) :
    (p.update M time g).progress = jsMod (time * p.speed) 1 ∧
    (p.update M time g).progress = time * p.speed - (⌊time * p.speed⌋ : ℚ) ∧
    0 ≤ (p.update M time g).progress ∧ (p.update M time g).progress < 1 ∧
    (p.update M time g).currentRadius
      = p.targetRadiusBase * (1 - (p.update M time g).progress) ∧
    (p.update M time g).currentAngle M
      = p.angleOffset + (p.update M time g).progress * (8 * M.PI) ∧
    (p.update M time g).points.getD 0 ⟨0, 0, 0⟩
      = { x := M.cos ((p.update M time g).currentAngle M) * (p.update M time g).currentRadius
            + M.sin (time * 2 + p.angleOffset) * 1.5
          y := (p.update M time g).progress * p.targetHeight + M.cos (time * 1.5) * 0.8
          z := M.sin ((p.update M time g).currentAngle M) * (p.update M time g).currentRadius
            + M.cos (time * 2 + p.angleOffset) * 1.5 } ∧
    (p.targetRadiusBase = 10 → p.targetHeight = 50 → p.angleOffset = 0 → p.speed = 0.01 →
      time = 50 →
      (p.update M time g).progress = 0.5 ∧ (p.update M time g).currentRadius = 5 ∧
      (p.update M time g).currentAngle M = 4 * M.PI ∧
      (p.update M time g).progress * p.targetHeight = 25) := by
  have hx : 0 ≤ time * p.speed := mul_nonneg ht hs
  have hhead := update_head_of_visible M p time g ha ho hne
  have hpr : (p.update M time g).progress = jsMod (time * p.speed) 1 := by
    rw [update_of_visible M p time g ha ho]
  have hR : (p.update M time g).currentRadius
      = p.targetRadiusBase * (1 - (p.update M time g).progress) := by
    rw [update_of_visible M p time g ha ho]; rfl
  have hA : (p.update M time g).currentAngle M
      = p.angleOffset + (p.update M time g).progress * (8 * M.PI) := by
    rw [update_of_visible M p time g ha ho]
    simp only [LightPainter.currentAngle]
    ring
  refine ⟨hpr, ?_, ?_, ?_, hR, hA, ?_, ?_⟩
  · rw [hpr]; exact jsMod_one_of_nonneg _ hx
  · rw [hpr]; exact (jsMod_one_bounds _ hx).1
  · rw [hpr]; exact (jsMod_one_bounds _ hx).2
  · rw [hhead, update_of_visible M p time g ha ho]
    rfl
  · intro h1 h2 h3 h4 h5
    have h05 : (p.update M time g).progress = 0.5 := by
      rw [hpr, jsMod_one_of_nonneg _ hx, h4, h5]
      have hf : ⌊(50 : ℚ) * 0.01⌋ = 0 := by
        rw [Int.floor_eq_iff]; norm_num
      rw [hf]; norm_num
    refine ⟨h05, ?_, ?_, ?_⟩
    · rw [hR, h05, h1]; norm_num
    · rw [hA, h05, h3]; ring
    · rw [h05, h2]; norm_num

/-- C8 at the painter constructed with `targetRadiusBase = 10`, `targetHeight = 50`,
`angleOffset = 0`, `speed = 0.01`: at `time = 50` its progress is `0.5`, the radius
`5`, the angle `4 * PI` and the height `25`. -/
theorem C8_spiral_head_witness :
    (spiralPainter.update flatMath 50 1).progress = 0.5 ∧
    (spiralPainter.update flatMath 50 1).currentRadius = 5 ∧
    (spiralPainter.update flatMath 50 1).currentAngle flatMath = 4 * flatMath.PI ∧
    (spiralPainter.update flatMath 50 1).progress * spiralPainter.targetHeight = 25 :=
  (C8_spiral_head flatMath spiralPainter 50 1 rfl
    (by norm_num [LightPainter.smoothedOpacity, spiralPainter, LightPainter.new,
      LightPainter.activate, MathUtils.lerp])
    (by norm_num)
    (by norm_num [spiralPainter, LightPainter.new, LightPainter.activate])
    (by simp [spiralPainter, LightPainter.new, LightPainter.activate])).2.2.2.2.2.2.2
    (by norm_num [spiralPainter, LightPainter.new, LightPainter.activate])
    (by norm_num [spiralPainter, LightPainter.new, LightPainter.activate])
    (by norm_num [spiralPainter, LightPainter.new, LightPainter.activate])
    (by norm_num [spiralPainter, LightPainter.new, LightPainter.activate])
    rfl

/-- The constructor gives a speed of at least `0.008` for a draw in `[0, 1)`. -/
theorem new_speed_ge (M : MathLib) (palette : List ℕ) (delay : ℚ) (d : PainterDraws)
    (h : 0 ≤ d.speed) : 0.008 ≤ (LightPainter.new M palette delay d).speed := by
  simp only [LightPainter.new]
  linarith [mul_nonneg h (show (0 : ℚ) ≤ 0.015 by norm_num)]

/-- Neither `activate` nor `update` writes the path parameters. -/
theorem update_params (M : MathLib) (p : LightPainter) (time g : ℚ) :
    (p.update M time g).speed = p.speed ∧
    (p.update M time g).targetRadiusBase = p.targetRadiusBase ∧
    (p.update M time g).targetHeight = p.targetHeight ∧
    (p.update M time g).angleOffset = p.angleOffset := by
  unfold LightPainter.update
  split
  · exact ⟨rfl, rfl, rfl, rfl⟩
  · dsimp only
    split <;> exact ⟨rfl, rfl, rfl, rfl⟩

/-! ## The head as a function of time -/

/-- The head target only reads the four path parameters and the stored progress. -/
theorem headTarget_congr (M : MathLib) (p q : LightPainter) (time : ℚ)
    (hR : p.targetRadiusBase = q.targetRadiusBase) (hH : p.targetHeight = q.targetHeight)
    (hA : p.angleOffset = q.angleOffset) (hP : p.progress = q.progress) :
    p.headTarget M time = q.headTarget M time := by
  simp only [LightPainter.headTarget, LightPainter.currentAngle, LightPainter.currentRadius,
    hR, hH, hA, hP]

/-- C9 as stated fails: `freshPainter` and `warmPainter` are both active and have the
same `targetRadiusBase`, `targetHeight`, `angleOffset` and `speed`, and differ only in
their prior opacity (`0` and `0.5`); updated at the same time `0` with the same global
opacity `0.1`, the first is still below the visibility threshold and keeps its head at
the origin, the second moves its head to `(8, 0.8, 1.5)`. -/
theorem C9_head_depends_on_opacity :
    freshPainter.active = true ∧ warmPainter.active = true ∧
    freshPainter.targetRadiusBase = warmPainter.targetRadiusBase ∧
    freshPainter.targetHeight = warmPainter.targetHeight ∧
    freshPainter.angleOffset = warmPainter.angleOffset ∧
    freshPainter.speed = warmPainter.speed ∧
    (freshPainter.update flatMath 0 0.1).points.getD 0 ⟨0, 0, 0⟩ = ⟨0, 0, 0⟩ ∧
    (warmPainter.update flatMath 0 0.1).points.getD 0 ⟨0, 0, 0⟩ = ⟨8, 0.8, 1.5⟩ ∧
    (freshPainter.update flatMath 0 0.1).points.getD 0 ⟨0, 0, 0⟩
      ≠ (warmPainter.update flatMath 0 0.1).points.getD 0 ⟨0, 0, 0⟩ := by
  have h1 : (freshPainter.update flatMath 0 0.1).points.getD 0 ⟨0, 0, 0⟩ = ⟨0, 0, 0⟩ := by
    rw [update_of_faint flatMath freshPainter 0 0.1 rfl
      (by norm_num [LightPainter.smoothedOpacity, freshPainter, LightPainter.new,
        LightPainter.activate, MathUtils.lerp])]
    rfl
  have h2 : (warmPainter.update flatMath 0 0.1).points.getD 0 ⟨0, 0, 0⟩ = ⟨8, 0.8, 1.5⟩ := by
    rw [update_head_of_visible flatMath warmPainter 0 0.1 rfl
      (by norm_num [LightPainter.smoothedOpacity, warmPainter, freshPainter, LightPainter.new,
        LightPainter.activate, MathUtils.lerp])
      (by simp [warmPainter, freshPainter, LightPainter.new, LightPainter.activate])]
    have hm : jsMod (0 * warmPainter.speed) 1 = 0 := by
      rw [zero_mul, jsMod_one_of_nonneg 0 (le_refl 0)]; simp
    rw [hm]
    norm_num [LightPainter.headTarget, LightPainter.currentAngle, LightPainter.currentRadius,
      warmPainter, freshPainter, LightPainter.new, LightPainter.activate, flatMath]
  refine ⟨rfl, rfl, rfl, rfl, rfl, rfl, h1, h2, ?_⟩
  rw [h1, h2]
  intro h
  have hx := congrArg Vector3.x h
  norm_num at hx

/-- C9, amended: for any two active painters `p` and `q` with the same
`targetRadiusBase`, `targetHeight`, `angleOffset` and `speed`, each with at least one
point and each with opacity after smoothing at least `0.01`, `update` at the same `time`
leaves `points[0]` identical in both, whatever their trail state and whatever prior
opacity and global opacity led to the two smoothed opacities; and an active painter `r`
whose opacity after smoothing is below `0.01` keeps its previous `points[0]` (and all
its other points). -/
theorem C9_head_pure_when_visible (M : MathLib) (p q r : LightPainter) (time gp gq gr : ℚ)
    (hap : p.active = true) (haq : q.active = true)
    (hR : p.targetRadiusBase = q.targetRadiusBase) (hH : p.targetHeight = q.targetHeight)
    (hA : p.angleOffset = q.angleOffset) (hS : p.speed = q.speed)
    (hop : 0.01 ≤ p.smoothedOpacity gp) (hoq : 0.01 ≤ q.smoothedOpacity gq)
    (hnp : p.points ≠ []) (hnq : q.points ≠ [])
    (har : r.active = true) (hor : r.smoothedOpacity gr < 0.01) :
    (p.update M time gp).points.getD 0 ⟨0, 0, 0⟩
      = (q.update M time gq).points.getD 0 ⟨0, 0, 0⟩ ∧
    (r.update M time gr).points.getD 0 ⟨0, 0, 0⟩ = r.points.getD 0 ⟨0, 0, 0⟩ ∧
    (r.update M time gr).points = r.points := by
  refine ⟨?_, ?_, ?_⟩
  · rw [update_head_of_visible M p time gp hap hop hnp,
      update_head_of_visible M q time gq haq hoq hnq]
    exact headTarget_congr M _ _ time hR hH hA (by simp only [hS])
  · rw [update_of_faint M r time gr har hor]
  · rw [update_of_faint M r time gr har hor]

/-- C9, amended, at concrete painters: with global opacity `1` both `freshPainter`
(prior opacity `0`) and `warmPainter` (prior opacity `0.5`) are visible after
smoothing, and their heads agree at time `7`; with global opacity `0.1` the
`freshPainter` stays below the threshold and keeps its head. -/
theorem C9_head_pure_when_visible_witness :
    (freshPainter.update flatMath 7 1).points.getD 0 ⟨0, 0, 0⟩
      = (warmPainter.update flatMath 7 1).points.getD 0 ⟨0, 0, 0⟩ ∧
    (freshPainter.update flatMath 7 0.1).points.getD 0 ⟨0, 0, 0⟩
      = freshPainter.points.getD 0 ⟨0, 0, 0⟩ ∧
    (freshPainter.update flatMath 7 0.1).points = freshPainter.points :=
  C9_head_pure_when_visible flatMath freshPainter warmPainter freshPainter 7 1 1 0.1
    rfl rfl rfl rfl rfl rfl
    (by norm_num [LightPainter.smoothedOpacity, freshPainter, LightPainter.new,
      LightPainter.activate, MathUtils.lerp])
    (by norm_num [LightPainter.smoothedOpacity, warmPainter, freshPainter, LightPainter.new,
      LightPainter.activate, MathUtils.lerp])
    (by simp [freshPainter, LightPainter.new, LightPainter.activate])
    (by simp [warmPainter, freshPainter, LightPainter.new, LightPainter.activate])
    rfl
    (by norm_num [LightPainter.smoothedOpacity, freshPainter, LightPainter.new,
      LightPainter.activate, MathUtils.lerp])

end ChaosToBeauty
